import Mathlib

/-!
Verification of `django-durationfield`, file
`durationfield/db/models/fields/duration.py`.

The core under verification is the precision-aware codec between a
structured duration value (Python `datetime.timedelta`) and an integer
(`DurationField.get_db_prep_value` / `DurationField.to_python`), plus the
field's construction-time precision check (`DurationField.__init__`).

The duration-string parser (`durationfield.utils.timestring.str_to_timedelta`)
is imported by the source file but its own source is not part of this
repository snapshot; it is modelled from the specification's grammar (§4.1)
below and marked as such.
-/

/-- Python `datetime.timedelta`: a time span normalized so that
`0 ≤ seconds < 86400` and `0 ≤ microseconds < 1000000`, with any sign
carried by `days`. -/
structure Timedelta where
  days : Int
  seconds : Nat
  microseconds : Nat
deriving DecidableEq, Repr

/-- The normalization invariant that every Python-constructed `timedelta`
satisfies: the `seconds` and `microseconds` fields are reduced. -/
def Timedelta.normalized (t : Timedelta) : Prop :=
  t.seconds < 86400 ∧ t.microseconds < 1000000

instance (t : Timedelta) : Decidable t.normalized := by
  unfold Timedelta.normalized; infer_instance

/-- Total span in microseconds (signed). Python `timedelta` equality and
ordering coincide with equality and ordering of this quantity. -/
def Timedelta.totalMicroseconds (t : Timedelta) : Int :=
  t.days * 86400000000 + (t.seconds : Int) * 1000000 + (t.microseconds : Int)

/-- Python `timedelta(microseconds=m)`: normalization by floor division,
exactly as CPython constructs a timedelta from a microsecond count
(`days = m // 86400000000`, remainder split into seconds and microseconds,
both non-negative). Lean's `/`/`%` on `Int` agree with Python `//`/`%` on
the positive divisors used here. -/
def Timedelta.ofMicroseconds (m : Int) : Timedelta :=
  { days := m / 86400000000
    seconds := ((m % 86400000000) / 1000000).toNat
    microseconds := (m % 1000000).toNat }

/-- Python `abs(timedelta)`: `-self` when `days < 0`, else `self`; negation
renormalizes, which is the same as rebuilding from the negated total
microsecond count. -/
def Timedelta.abs (t : Timedelta) : Timedelta :=
  if t.days < 0 then Timedelta.ofMicroseconds (-(t.totalMicroseconds)) else t

/-- The three precisions accepted by `DurationField.__init__`
(`'microseconds'`, `'seconds'`, `'days'`). -/
inductive Precision where
  | microseconds
  | seconds
  | days
deriving DecidableEq, Repr

/-- Microseconds per unit of a precision: `timedelta(**{precision: n})`
equals `Timedelta.ofMicroseconds (n * factor)`. -/
def Precision.factor : Precision → Nat
  | .microseconds => 1
  | .seconds => 1000000
  | .days => 86400000000

/-- The two error kinds of `DurationField.default_error_messages`:
`invalid` ("This value must be in \"w d h min s ms us\" format.") and
`unknown_type` ("The value's type could not be converted"). -/
inductive DurationError where
  | invalid
  | unknown_type
deriving DecidableEq, Repr

/- ---------------------------------------------------------------------
The duration-string parser.
--------------------------------------------------------------------- -/

/-- Modelled from the spec: the unit table of the §4.1 grammar
(`w d h min s ms us`), giving each unit's length in microseconds. The
source of `durationfield.utils.timestring` is not in this repository
snapshot. -/
def unitMicroseconds (u : String) : Option Nat :=
  if u = "w" then some 604800000000
  else if u = "d" then some 86400000000
  else if u = "h" then some 3600000000
  else if u = "min" then some 60000000
  else if u = "s" then some 1000000
  else if u = "ms" then some 1000
  else if u = "us" then some 1
  else none

/-- Value of a digit string read in base 10. -/
def digitsToNat (ds : List Char) : Nat :=
  ds.foldl (fun a c => a * 10 + (c.toNat - 48)) 0

/-- Modelled from the spec: the microsecond contribution of one
`<amount><unit>` token, where the amount is `ip` (integer digits) possibly
followed by `.fp` (fraction digits). Fractional sub-microsecond results are
truncated, not rounded (`Nat` division truncates). -/
def tokenMicroseconds (ip fp : List Char) (u : Nat) : Nat :=
  digitsToNat ip * u + digitsToNat fp * u / 10 ^ fp.length

/-- Modelled from the spec: the tokenizing loop of the §4.1 grammar. Reads
`<amount><unit>` tokens (whitespace tolerated between and inside tokens),
rejects unknown and duplicate units, garbled tokens and token-free input,
and sums the contributions in microseconds. The fuel argument bounds the
recursion; each step consumes at least one character, so `length + 1` fuel
is never exhausted. -/
def parseLoop : Nat → List Char → List String → Nat → Bool → Option Nat
  | 0, _, _, _, _ => none
  | fuel + 1, cs, used, acc, found =>
    let cs1 := cs.dropWhile Char.isWhitespace
    match cs1 with
    | [] => if found then some acc else none
    | c :: _ =>
      if c.isDigit then
        let ip := cs1.takeWhile Char.isDigit
        let r1 := cs1.dropWhile Char.isDigit
        let fp := match r1 with
          | '.' :: r2 => r2.takeWhile Char.isDigit
          | _ => []
        let r3 := match r1 with
          | '.' :: r2 => r2.dropWhile Char.isDigit
          | _ => r1
        let r4 := r3.dropWhile Char.isWhitespace
        let uChars := r4.takeWhile Char.isAlpha
        let r5 := r4.dropWhile Char.isAlpha
        if uChars.isEmpty then none
        else
          let uName := String.mk uChars
          match unitMicroseconds uName with
          | none => none
          | some u =>
            if used.contains uName then none
            else parseLoop fuel r5 (uName :: used) (acc + tokenMicroseconds ip fp u) true
      else none

/-- Modelled from the spec: the front half of
`durationfield.utils.timestring.str_to_timedelta` (its source is not in
this repository snapshot), following §4.1: trim, accept and discard a
leading minus sign, and parse the token sequence into a non-negative
microsecond total. Failure (Python `ValueError`) is `none`. -/
def strMicroseconds (s : String) : Option Nat :=
  let cs0 := s.data.dropWhile Char.isWhitespace
  let cs :=
    match cs0 with
    | '-' :: r => r
    | _ => cs0
  parseLoop (cs.length + 1) cs [] 0 false

/-- Modelled from the spec: the renormalization step of
`str_to_timedelta` — the non-negative microsecond total of the token sum
becomes a normalized `Timedelta`. -/
def str_to_timedelta (s : String) : Option Timedelta :=
  (strMicroseconds s).map (fun n : Nat => Timedelta.ofMicroseconds (n : Int))

/- ---------------------------------------------------------------------
The codec: `get_db_prep_value` (encode) and `to_python` (decode).
--------------------------------------------------------------------- -/

/-- An input value reaching `DurationField.to_python`: a `timedelta`, an
integer, a string, or a value of any other type. In the source, a value of
any other type is passed to `smart_text`, which renders it as a string;
the `other` constructor carries that rendering (e.g. the Python float
`3.14` becomes `other "3.14"`). -/
inductive RawValue where
  | td (t : Timedelta)
  | int (n : Int)
  | str (s : String)
  | other (rendered : String)
deriving DecidableEq, Repr

/-- `DurationField.to_python(value)`: `None` passes through; a `timedelta`
is returned unchanged; an integer is interpreted as `self.precision` units
via `timedelta(**{self.precision: value})`; anything else is rendered by
`smart_text` (always a string) and handed to `str_to_timedelta`, a
`ValueError` becoming the `invalid` validation error. The final
`unknown_type` branch of the source is unreachable because `smart_text`
always returns a string. -/
def to_python (p : Precision) (value : Option RawValue) :
    Except DurationError (Option Timedelta) :=
  match value with
  | none => .ok none
  | some (.td t) => .ok (some t)
  | some (.int n) => .ok (some (Timedelta.ofMicroseconds (n * (p.factor : Int))))
  | some (.str s) =>
    match str_to_timedelta s with
    | some t => .ok (some t)
    | none => .error .invalid
  | some (.other rendered) =>
    match str_to_timedelta rendered with
    | some t => .ok (some t)
    | none => .error .invalid

/-- `DurationField.get_db_prep_value(value)`: `None` maps to database NULL;
an integer is first converted by `timedelta(**{self.precision: value})`;
the absolute value is taken ("all durations are positive"); then the
precision dictates the integer encoding. -/
def get_db_prep_value (p : Precision) (value : Option (Int ⊕ Timedelta)) :
    Option Int :=
  match value with
  | none => none
  | some v =>
    let t : Timedelta :=
      match v with
      | .inl n => Timedelta.ofMicroseconds (n * (p.factor : Int))
      | .inr t => t
    let a := t.abs
    some (match p with
      | .microseconds =>
        a.days * 24 * 3600 * 1000000 + (a.seconds : Int) * 1000000 + (a.microseconds : Int)
      | .seconds => a.days * 24 * 3600 + (a.seconds : Int)
      | .days => a.days)

/- ---------------------------------------------------------------------
Field construction.
--------------------------------------------------------------------- -/

/-- A constructed `DurationField` configuration: `__init__` stores the
`precision` string on the instance. -/
structure DurationField where
  precision : String
deriving DecidableEq, Repr

/-- `DurationField.__init__(precision)`: raises (here `none`) unless the
precision is one of `'microseconds'`, `'seconds'`, `'days'`; otherwise
stores the string unchanged. -/
def DurationField.init (precision : String) : Option DurationField :=
  if precision = "microseconds" ∨ precision = "seconds" ∨ precision = "days" then
    some ⟨precision⟩
  else
    none

/- ---------------------------------------------------------------------
Arithmetic facts about the normalized representation.
--------------------------------------------------------------------- -/

theorem totalMicroseconds_ofMicroseconds (m : Int) :
    (Timedelta.ofMicroseconds m).totalMicroseconds = m := by
  simp only [Timedelta.ofMicroseconds, Timedelta.totalMicroseconds]
  omega

theorem normalized_ofMicroseconds (m : Int) :
    (Timedelta.ofMicroseconds m).normalized := by
  simp only [Timedelta.ofMicroseconds, Timedelta.normalized]
  omega

theorem totalMicroseconds_inj (t₁ t₂ : Timedelta) (h₁ : t₁.normalized)
    (h₂ : t₂.normalized) (h : t₁.totalMicroseconds = t₂.totalMicroseconds) :
    t₁ = t₂ := by
  obtain ⟨d₁, s₁, u₁⟩ := t₁
  obtain ⟨d₂, s₂, u₂⟩ := t₂
  simp only [Timedelta.normalized, Timedelta.totalMicroseconds, Timedelta.mk.injEq] at h₁ h₂ h ⊢
  omega

theorem ofMicroseconds_totalMicroseconds (t : Timedelta) (h : t.normalized) :
    Timedelta.ofMicroseconds t.totalMicroseconds = t :=
  totalMicroseconds_inj _ _ (normalized_ofMicroseconds _) h
    (totalMicroseconds_ofMicroseconds _)

theorem abs_ofMicroseconds (m : Int) :
    (Timedelta.ofMicroseconds m).abs = Timedelta.ofMicroseconds |m| := by
  unfold Timedelta.abs
  rw [totalMicroseconds_ofMicroseconds]
  by_cases hm : m < 0
  · rw [if_pos, abs_of_neg hm]
    simp only [Timedelta.ofMicroseconds]
    omega
  · rw [if_neg, abs_of_nonneg (by omega)]
    simp only [Timedelta.ofMicroseconds]
    omega

theorem abs_of_nonneg_days (t : Timedelta) (h : 0 ≤ t.days) : t.abs = t := by
  unfold Timedelta.abs
  rw [if_neg (by omega)]

theorem abs_days_nonneg (t : Timedelta) (h : t.normalized) : 0 ≤ t.abs.days := by
  unfold Timedelta.abs
  by_cases hd : t.days < 0
  · rw [if_pos hd]
    simp only [Timedelta.ofMicroseconds, Timedelta.totalMicroseconds]
    obtain ⟨h1, h2⟩ := h
    omega
  · rw [if_neg hd]
    omega

theorem str_to_timedelta_nonneg (s : String) (t : Timedelta)
    (h : str_to_timedelta s = some t) : 0 ≤ t.totalMicroseconds := by
  unfold str_to_timedelta at h
  cases hp : strMicroseconds s with
  | none => rw [hp] at h; simp at h
  | some n =>
    rw [hp, Option.map_some'] at h
    rw [Option.some.injEq] at h
    rw [← h, totalMicroseconds_ofMicroseconds]
    omega

/-- Zero sub-`p` components: under `seconds` precision the microseconds
field is zero; under `days` precision the seconds and microseconds fields
are both zero. -/
def noFinerComponent (p : Precision) (t : Timedelta) : Prop :=
  match p with
  | .microseconds => True
  | .seconds => t.microseconds = 0
  | .days => t.seconds = 0 ∧ t.microseconds = 0

/- ---------------------------------------------------------------------
The claims.
--------------------------------------------------------------------- -/

/-- C1: for every normalized non-negative duration value `t` (days `d ≥ 0`,
seconds in `[0, 86399]`, microseconds in `[0, 999999]`), encoding at
`microseconds` precision yields `d*86400000000 + s*1000000 + us`, at
`seconds` precision `d*86400 + s` (microseconds discarded by truncation),
and at `days` precision `d` (sub-day part discarded). -/
theorem encode_precision_formulas (t : Timedelta) (h : t.normalized)
    (hd : 0 ≤ t.days) :
    get_db_prep_value .microseconds (some (.inr t))
      = some (t.days * 86400000000 + (t.seconds : Int) * 1000000 + (t.microseconds : Int)) ∧
    get_db_prep_value .seconds (some (.inr t))
      = some (t.days * 86400 + (t.seconds : Int)) ∧
    get_db_prep_value .days (some (.inr t)) = some t.days := by
  simp only [get_db_prep_value, abs_of_nonneg_days t hd, Option.some.injEq]
  refine ⟨by ring, by ring, trivial⟩

/-- Witness for C1 at the concrete duration 1 day, 2 seconds,
3 microseconds. -/
theorem encode_precision_formulas_witness :
    get_db_prep_value .microseconds (some (.inr ⟨1, 2, 3⟩)) = some 86402000003 ∧
    get_db_prep_value .seconds (some (.inr ⟨1, 2, 3⟩)) = some 86402 ∧
    get_db_prep_value .days (some (.inr ⟨1, 2, 3⟩)) = some 1 := by
  have h := encode_precision_formulas ⟨1, 2, 3⟩ (by decide) (by decide)
  refine ⟨?_, ?_, h.2.2⟩
  · rw [h.1]; norm_num
  · rw [h.2.1]; norm_num

/-- C5: for every precision, decoding the null input returns null without
error, and encoding the null input returns null (database NULL). -/
theorem null_passthrough (p : Precision) :
    to_python p none = .ok none ∧ get_db_prep_value p none = none :=
  ⟨rfl, rfl⟩

/-- C6: for every non-negative integer `n` and precision `p`, decoding `n`
yields exactly the normalized duration value representing `n` units of `p`:
it is `Timedelta.ofMicroseconds (n * p.factor)`, it is normalized, and its
total magnitude is exactly `n * p.factor` microseconds. -/
theorem decode_int_exact (p : Precision) (n : Int) (h : 0 ≤ n) :
    to_python p (some (.int n))
      = .ok (some (Timedelta.ofMicroseconds (n * (p.factor : Int)))) ∧
    (Timedelta.ofMicroseconds (n * (p.factor : Int))).normalized ∧
    (Timedelta.ofMicroseconds (n * (p.factor : Int))).totalMicroseconds
      = n * (p.factor : Int) :=
  ⟨rfl, normalized_ofMicroseconds _, totalMicroseconds_ofMicroseconds _⟩

/-- Witness for C6: decoding 90000000 at `microseconds` precision yields a
duration of exactly 90 seconds. -/
theorem decode_int_exact_witness :
    to_python .microseconds (some (.int 90000000))
      = .ok (some (Timedelta.ofMicroseconds (90000000 * (Precision.factor .microseconds : Int)))) ∧
    Timedelta.ofMicroseconds (90000000 * (Precision.factor .microseconds : Int))
      = ⟨0, 90, 0⟩ :=
  ⟨(decode_int_exact .microseconds 90000000 (by decide)).1, by decide⟩

/-- C8: for every normalized duration input to encode, including a negative
one, and every precision, the encoded integer is non-negative (the absolute
value is taken before the per-precision formula is applied). -/
theorem encode_nonneg (p : Precision) (t : Timedelta) (h : t.normalized) :
    ∃ m, get_db_prep_value p (some (.inr t)) = some m ∧ 0 ≤ m := by
  have hd := abs_days_nonneg t h
  cases p with
  | microseconds => exact ⟨_, rfl, by positivity⟩
  | seconds => exact ⟨_, rfl, by positivity⟩
  | days => exact ⟨_, rfl, hd⟩

/-- Witness for C8 at the negative duration of minus one second
(`timedelta(days := -1, seconds := 86399)`). -/
theorem encode_nonneg_witness :
    ∃ m, get_db_prep_value .seconds (some (.inr ⟨-1, 86399, 0⟩)) = some m ∧ 0 ≤ m :=
  encode_nonneg .seconds ⟨-1, 86399, 0⟩ (by decide)

/-- C9: field construction succeeds exactly for the precision strings
"microseconds", "seconds" and "days", storing the chosen string unchanged;
for every other string it fails and produces no configuration. -/
theorem init_precision_check (s : String) :
    (s = "microseconds" ∨ s = "seconds" ∨ s = "days" →
      DurationField.init s = some ⟨s⟩) ∧
    (¬(s = "microseconds" ∨ s = "seconds" ∨ s = "days") →
      DurationField.init s = none) := by
  unfold DurationField.init
  exact ⟨fun h => by rw [if_pos h], fun h => by rw [if_neg h]⟩

/-- Witness for C9: "seconds" is accepted and stored unchanged; "weeks" is
rejected. -/
theorem init_precision_check_witness :
    DurationField.init "seconds" = some ⟨"seconds"⟩ ∧
    DurationField.init "weeks" = none :=
  ⟨(init_precision_check "seconds").1 (by simp),
   (init_precision_check "weeks").2 (by simp)⟩

/-- C2, counterexample: the float input `3.14` (an input whose kind is not
integer, string, duration or null) does not fail with the `unknown_type`
error; `smart_text` renders it as the string "3.14", whose parse failure
raises the `invalid` error instead. -/
theorem decode_float_counterexample :
    to_python .seconds (some (.other "3.14")) = .error .invalid ∧
    to_python .seconds (some (.other "3.14")) ≠ .error .unknown_type := by
  constructor
  · rfl
  · intro hcontra
    rw [show to_python .seconds (some (.other "3.14")) = .error .invalid from rfl] at hcontra
    simp at hcontra

/-- C2 as amended: an input of unrecognized kind is rendered to a string by
`smart_text` and parsed; when the rendered string does not parse, decode
fails with the `invalid` (InvalidFormat) error, and no input at any
precision ever produces the `unknown_type` (UnsupportedType) error — that
branch of the source is unreachable. -/
theorem decode_unrecognized_kind_invalid :
    (∀ (p : Precision) (r : String), str_to_timedelta r = none →
      to_python p (some (.other r)) = .error .invalid) ∧
    (∀ (p : Precision) (v : Option RawValue),
      to_python p v ≠ .error .unknown_type) := by
  constructor
  · intro p r h
    simp only [to_python, h]
  · intro p v hcontra
    match v with
    | none => simp [to_python] at hcontra
    | some (.td t) => simp [to_python] at hcontra
    | some (.int n) => simp [to_python] at hcontra
    | some (.str s) =>
      simp only [to_python] at hcontra
      cases hs : str_to_timedelta s <;> rw [hs] at hcontra <;> simp at hcontra
    | some (.other r) =>
      simp only [to_python] at hcontra
      cases hr : str_to_timedelta r <;> rw [hr] at hcontra <;> simp at hcontra

/-- Witness for the amended C2 at the rendered float "3.14" and at a null
input. -/
theorem decode_unrecognized_kind_invalid_witness :
    to_python .seconds (some (.other "3.14")) = .error .invalid ∧
    to_python .microseconds none ≠ .error .unknown_type :=
  ⟨decode_unrecognized_kind_invalid.1 .seconds "3.14" (by rfl),
   decode_unrecognized_kind_invalid.2 .microseconds none⟩

/-- C3, counterexample: decoding the integer -1 at `seconds` precision
returns `timedelta(seconds := -1)` — days -1, seconds 86399 — whose total
magnitude is negative: `to_python` takes no absolute value. -/
theorem decode_negative_counterexample :
    to_python .seconds (some (.int (-1))) = .ok (some ⟨-1, 86399, 0⟩) ∧
    (Timedelta.mk (-1) 86399 0).totalMicroseconds < 0 :=
  ⟨rfl, by decide⟩

/-- C3 as amended: decode takes no absolute value — an integer input is
returned as the signed `timedelta` of that many precision units, and a
duration-shaped input is passed through unchanged (both may be negative);
only string inputs are guaranteed non-negative, since the parser never
produces a negative value. (The absolute value is applied by encode,
`get_db_prep_value`, instead.) -/
theorem decode_sign_behavior :
    (∀ (p : Precision) (n : Int), to_python p (some (.int n))
      = .ok (some (Timedelta.ofMicroseconds (n * (p.factor : Int))))) ∧
    (∀ (p : Precision) (t : Timedelta), to_python p (some (.td t)) = .ok (some t)) ∧
    (∀ (p : Precision) (s : String) (t : Timedelta),
      to_python p (some (.str s)) = .ok (some t) → 0 ≤ t.totalMicroseconds) := by
  refine ⟨fun p n => rfl, fun p t => rfl, fun p s t h => ?_⟩
  simp only [to_python] at h
  cases hs : str_to_timedelta s with
  | none => rw [hs] at h; simp at h
  | some u =>
    rw [hs] at h
    rw [Except.ok.injEq, Option.some.injEq] at h
    rw [← h]
    exact str_to_timedelta_nonneg s u hs

/-- Witness for the amended C3: the string "1s" decodes to one second,
which is non-negative. -/
theorem decode_sign_behavior_witness :
    0 ≤ (Timedelta.mk 0 1 0).totalMicroseconds :=
  decode_sign_behavior.2.2 .seconds "1s" ⟨0, 1, 0⟩ (by rfl)

/-- C7: whenever the underlying string parser rejects a string (empty
string, unparseable token, unknown unit, duplicate unit — any parser
failure), decode fails with the `invalid` (InvalidFormat) error and with no
other error kind. -/
theorem decode_bad_string_invalid (p : Precision) (s : String)
    (h : str_to_timedelta s = none) :
    to_python p (some (.str s)) = .error .invalid := by
  simp only [to_python, h]

/-- Witness for C7 at the empty string, which the parser rejects. -/
theorem decode_bad_string_invalid_witness :
    to_python .seconds (some (.str "")) = .error .invalid :=
  decode_bad_string_invalid .seconds "" (by rfl)

/-- C4: for every non-negative normalized duration value `t` and precision
`p`, if `t` has no component finer than `p` (microseconds zero under
`seconds`; seconds and microseconds zero under `days`), then decoding the
encoding of `t` at `p` returns `t` exactly. -/
theorem decode_encode_roundtrip (p : Precision) (t : Timedelta)
    (h : t.normalized) (hd : 0 ≤ t.days) (hf : noFinerComponent p t) :
    ∃ m, get_db_prep_value p (some (.inr t)) = some m ∧
      to_python p (some (.int m)) = .ok (some t) := by
  have habs := abs_of_nonneg_days t hd
  cases p with
  | microseconds =>
    refine ⟨_, rfl, ?_⟩
    simp only [to_python, habs, Except.ok.injEq, Option.some.injEq]
    have harg : (t.days * 24 * 3600 * 1000000 + (t.seconds : Int) * 1000000
        + (t.microseconds : Int)) * ((Precision.factor .microseconds : Nat) : Int)
        = t.totalMicroseconds := by
      simp only [Precision.factor, Timedelta.totalMicroseconds]
      push_cast
      ring
    rw [harg, ofMicroseconds_totalMicroseconds t h]
  | seconds =>
    refine ⟨_, rfl, ?_⟩
    simp only [to_python, habs, Except.ok.injEq, Option.some.injEq]
    have harg : (t.days * 24 * 3600 + (t.seconds : Int))
        * ((Precision.factor .seconds : Nat) : Int) = t.totalMicroseconds := by
      simp only [Precision.factor, Timedelta.totalMicroseconds]
      have hus : t.microseconds = 0 := hf
      rw [hus]
      push_cast
      ring
    rw [harg, ofMicroseconds_totalMicroseconds t h]
  | days =>
    refine ⟨_, rfl, ?_⟩
    simp only [to_python, habs, Except.ok.injEq, Option.some.injEq]
    have harg : t.days * ((Precision.factor .days : Nat) : Int)
        = t.totalMicroseconds := by
      simp only [Precision.factor, Timedelta.totalMicroseconds]
      obtain ⟨hs, hus⟩ : t.seconds = 0 ∧ t.microseconds = 0 := hf
      rw [hs, hus]
      push_cast
      ring
    rw [harg, ofMicroseconds_totalMicroseconds t h]

/-- Witness for C4 at 1 day 2 seconds under `seconds` precision. -/
theorem decode_encode_roundtrip_witness :
    ∃ m, get_db_prep_value .seconds (some (.inr ⟨1, 2, 0⟩)) = some m ∧
      to_python .seconds (some (.int m)) = .ok (some ⟨1, 2, 0⟩) :=
  decode_encode_roundtrip .seconds ⟨1, 2, 0⟩ (by decide) (by decide) rfl

/-- C10: for every integer `n` (of either sign) and precision `p`, decoding
`n` and encoding the result back at `p` yields the absolute value of `n`;
for non-negative `n` the integer-to-integer round trip is the identity. -/
theorem encode_decode_abs (n : Int) (p : Precision) :
    ∃ t, to_python p (some (.int n)) = .ok (some t) ∧
      get_db_prep_value p (some (.inr t)) = some |n| := by
  refine ⟨Timedelta.ofMicroseconds (n * (p.factor : Int)), rfl, ?_⟩
  have hfac : |n * (p.factor : Int)| = |n| * (p.factor : Int) := by
    rw [abs_mul, abs_of_nonneg (by positivity : (0 : Int) ≤ (p.factor : Int))]
  obtain ⟨k, hk, hkeq⟩ : ∃ k : Int, 0 ≤ k ∧ |n| = k := ⟨|n|, abs_nonneg n, rfl⟩
  rw [hkeq] at hfac ⊢
  cases p
  all_goals
    simp only [get_db_prep_value]
    rw [abs_ofMicroseconds, hfac]
    simp only [Precision.factor, Timedelta.ofMicroseconds, Option.some.injEq]
    omega
